import Mathlib

/-
Verification of the in-memory blob store of n8n-nodes-binary-to-url.

The definitions below are a shallow embedding of the storage engine in
src (the `MemoryStorage` class) together with the configuration
constants of src/config/constants.ts.  JavaScript `Map`s are modelled
as insertion-ordered association lists (`Map.set` updates in place or
appends, `Map.delete` removes the entry, iteration follows list
order).  `Date.now()` is passed explicitly as a `now : Nat` argument:
every top-level operation runs synchronously in the source, so a
single instant per call is the faithful reading.  `Buffer`s are
`List Nat` byte lists, and `Math.max(0, a - b)` on the non-negative
counters is Nat truncated subtraction.  The two `while` loops of the
source (`cleanupWorkflowExpired` and the binary-search insertion) are
written with an explicit fuel that dominates their iteration count;
on every state where the source terminates the fuel is never
exhausted and the functions agree with the source.
-/

namespace BinaryToUrl

/-- TTL.DEFAULT from src/config/constants.ts: 600 * 1000 milliseconds. -/
def TTL_DEFAULT : Nat := 600 * 1000

/-- CACHE_LIMITS.MAX_CACHE_SIZE: per-workflow cap, 100 MB. -/
def MAX_CACHE_SIZE : Nat := 100 * 1024 * 1024

/-- CACHE_LIMITS.GLOBAL_MAX_CACHE_SIZE: global cap, 500 MB. -/
def GLOBAL_MAX_CACHE_SIZE : Nat := 500 * 1024 * 1024

/-- CLEANUP.MAX_DELETE_PER_CLEANUP. -/
def MAX_DELETE_PER_CLEANUP : Nat := 100

/-- CLEANUP.MIN_FILES_TO_KEEP. -/
def MIN_FILES_TO_KEEP : Nat := 1

/-- CLEANUP.VALIDATION_THRESHOLD, bytes. -/
def VALIDATION_THRESHOLD : Nat := 1024

/-- MemoryFile of src: a stored blob. -/
structure MemoryFile where
  data : List Nat
  contentType : String
  uploadedAt : Nat
  expiresAt : Nat
deriving DecidableEq

/-- WorkflowCache of src: one tenant's namespace. -/
structure WorkflowCache where
  cache : List (String × MemoryFile)
  cacheSize : Nat
  nextExpirationTime : Option Nat
  expirationQueue : List (String × Nat)
deriving DecidableEq

/-- The static state of the MemoryStorage class. -/
structure Storage where
  workflowCaches : List (String × WorkflowCache)
  globalCacheSize : Nat
  nextGlobalExpirationTime : Option Nat
deriving DecidableEq

/-- The empty per-tenant cache object created by getOrCreateWorkflowCache. -/
def emptyWorkflowCache : WorkflowCache :=
  { cache := [], cacheSize := 0, nextExpirationTime := none, expirationQueue := [] }

/-- JavaScript Map.get on an association list. -/
def mapGet {β : Type} : List (String × β) → String → Option β
  | [], _ => none
  | (k, v) :: rest, key => if k = key then some v else mapGet rest key

/-- JavaScript Map.set: update in place, or append a new entry. -/
def mapSet {β : Type} : List (String × β) → String → β → List (String × β)
  | [], key, v => [(key, v)]
  | (k, w) :: rest, key, v =>
    if k = key then (key, v) :: rest else (k, w) :: mapSet rest key v

/-- JavaScript Map.delete: remove the (first) entry with the key. -/
def mapErase {β : Type} : List (String × β) → String → List (String × β)
  | [], _ => []
  | (k, w) :: rest, key => if k = key then rest else (k, w) :: mapErase rest key

/-- The splice at findIndex of the expiration queue in delete. -/
def eraseQueueKey : List (String × Nat) → String → List (String × Nat)
  | [], _ => []
  | e :: rest, key => if e.1 = key then rest else e :: eraseQueueKey rest key

/-- JavaScript truthiness of an optional timestamp: defined and non-zero. -/
def jsTruthy : Option Nat → Bool
  | none => false
  | some t => t != 0

/-- A guard of the shape `o && p o` on an optional timestamp. -/
def truthyAnd (o : Option Nat) (p : Nat → Bool) : Bool :=
  match o with
  | none => false
  | some t => (t != 0) && p t

/-- JavaScript `a < b` where `a` may be undefined (then false) and `b` may
be Infinity (modelled as `none`, then true for defined `a`). -/
def jsLtOpt : Option Nat → Option Nat → Bool
  | none, _ => false
  | some _, none => true
  | some a, some b => a < b

/-- The `ttl || DEFAULT_TTL` of uploadInternal: an absent or zero ttl
falls back to the default. -/
def ttlOrDefault : Option Nat → Nat
  | none => TTL_DEFAULT
  | some t => if t = 0 then TTL_DEFAULT else t

namespace MemoryStorage

/-- getOrCreateWorkflowCache: insert an empty tenant cache if absent. -/
def getOrCreateWorkflowCache (s : Storage) (workflowId : String) : Storage :=
  match mapGet s.workflowCaches workflowId with
  | some _ => s
  | none =>
    { s with workflowCaches := mapSet s.workflowCaches workflowId emptyWorkflowCache }

/-- MemoryStorage.delete: remove one entry of one tenant, returning
whether an entry was removed. -/
def delete (s : Storage) (workflowId fileKey : String) : Storage × Bool :=
  match mapGet s.workflowCaches workflowId with
  | none => (s, false)
  | some wc =>
    match mapGet wc.cache fileKey with
    | none => (s, false)
    | some file =>
      let size1 := wc.cacheSize - file.data.length
      let gsize := s.globalCacheSize - file.data.length
      let cache1 := mapErase wc.cache fileKey
      let queue1 := eraseQueueKey wc.expirationQueue fileKey
      let wc1 : WorkflowCache :=
        if cache1.length = 0 then
          { cache := cache1, cacheSize := size1, nextExpirationTime := none,
            expirationQueue := [] }
        else
          { cache := cache1, cacheSize := size1,
            nextExpirationTime := Option.map Prod.snd queue1.head?,
            expirationQueue := queue1 }
      ({ workflowCaches := mapSet s.workflowCaches workflowId wc1,
         globalCacheSize := gsize,
         nextGlobalExpirationTime := s.nextGlobalExpirationTime }, true)

/-- The while loop of cleanupWorkflowExpired, popping expired entries
from the front of the sorted queue.  The fuel bounds its iterations. -/
def cleanupExpiredLoop (now : Nat) (workflowId : String) : Nat → Storage → Storage
  | 0, s => s
  | Nat.succ fuel, s =>
    match mapGet s.workflowCaches workflowId with
    | none => s
    | some wc =>
      match wc.expirationQueue with
      | [] => s
      | e :: _ =>
        if now ≤ e.2 then s
        else cleanupExpiredLoop now workflowId fuel (delete s workflowId e.1).1

/-- MemoryStorage.cleanupWorkflowExpired. -/
def cleanupWorkflowExpired (now : Nat) (s : Storage) (workflowId : String) : Storage :=
  match mapGet s.workflowCaches workflowId with
  | none => s
  | some wc =>
    if wc.cache.length = 0 then s
    else if truthyAnd wc.nextExpirationTime (fun t => now < t) then s
    else cleanupExpiredLoop now workflowId wc.expirationQueue.length s

/-- The accumulator of the tenant loop of cleanupAllExpired: the rebuilt
tenant list, the collected expired (workflowId, fileKey) pairs, and the
running minimum next-expiration (`none` is Infinity). -/
structure CleanupAcc where
  caches : List (String × WorkflowCache)
  expired : List (String × String)
  minExpiration : Option Nat

/-- The rewrite one tenant loop iteration of cleanupAllExpired applies to
the tenant record: when its next expiration is still in the future the
record is untouched, otherwise the expired queue head segment is spliced
off and the next expiration recomputed (left `none` when the blob map is
empty). -/
def phase1Val (now : Nat) (wc : WorkflowCache) : WorkflowCache :=
  if truthyAnd wc.nextExpirationTime (fun t => now < t) then wc
  else
    let expiredHere := wc.expirationQueue.takeWhile (fun e => e.2 < now)
    let queue1 := wc.expirationQueue.drop expiredHere.length
    let next1 := if 0 < wc.cache.length then Option.map Prod.snd queue1.head? else none
    { wc with expirationQueue := queue1, nextExpirationTime := next1 }

/-- The (workflowId, fileKey) pairs one tenant loop iteration of
cleanupAllExpired collects for deletion. -/
def expiredOf (now : Nat) (entry : String × WorkflowCache) : List (String × String) :=
  if truthyAnd entry.2.nextExpirationTime (fun t => now < t) then []
  else (entry.2.expirationQueue.takeWhile (fun e => e.2 < now)).map (fun e => (entry.1, e.1))

/-- The update one tenant loop iteration of cleanupAllExpired applies to
the running minimum expiration (`none` is Infinity), mirroring the two
comparison sites of the source including their truthiness guards. -/
def minUpdate (now : Nat) (m : Option Nat) (wc : WorkflowCache) : Option Nat :=
  let min1 :=
    if jsTruthy wc.nextExpirationTime && jsLtOpt wc.nextExpirationTime m
    then wc.nextExpirationTime else m
  if truthyAnd wc.nextExpirationTime (fun t => now < t) then min1
  else
    let queue1 := wc.expirationQueue.drop
      (wc.expirationQueue.takeWhile (fun e => e.2 < now)).length
    let next1 := if 0 < wc.cache.length then Option.map Prod.snd queue1.head? else none
    if 0 < wc.cache.length && jsLtOpt next1 min1 then next1 else min1

/-- One iteration of the tenant loop of cleanupAllExpired: the three
accumulator components are updated independently of each other, exactly
as the loop body of the source computes them. -/
def processTenantExpiry (now : Nat) (acc : CleanupAcc) (entry : String × WorkflowCache) :
    CleanupAcc :=
  { caches := acc.caches ++ [(entry.1, phase1Val now entry.2)],
    expired := acc.expired ++ expiredOf now entry,
    minExpiration := minUpdate now acc.minExpiration entry.2 }

/-- MemoryStorage.cleanupAllExpired: one pass over every tenant that
collects the expired pairs, then deletes them, then installs the new
global minimum expiration. -/
def cleanupAllExpired (now : Nat) (s : Storage) : Storage :=
  if truthyAnd s.nextGlobalExpirationTime (fun t => now < t) then s
  else
    let acc := s.workflowCaches.foldl (processTenantExpiry now)
      { caches := [], expired := [], minExpiration := none }
    let s1 : Storage := { s with workflowCaches := acc.caches }
    let s2 := acc.expired.foldl (fun st p => (delete st p.1 p.2).1) s1
    { s2 with nextGlobalExpirationTime := acc.minExpiration }

/-- Stable insertion of one element into a list sorted ascending by key,
modelling the stable Array.prototype.sort of the source. -/
def insertAsc {α : Type} (key : α → Nat) (e : α) : List α → List α
  | [] => [e]
  | x :: xs => if key e ≤ key x then e :: x :: xs else x :: insertAsc key e xs

/-- Stable ascending sort by a Nat key. -/
def sortAsc {α : Type} (key : α → Nat) : List α → List α
  | [] => []
  | x :: xs => insertAsc key x (sortAsc key xs)

/-- The eviction loop of cleanupOldestInWorkflow over the age-sorted
snapshot of the tenant's entries. -/
def evictOldestLoop (workflowId : String) (total requiredSpace : Nat) :
    List (String × MemoryFile) → Nat → Nat → Storage → Storage
  | [], _, _, s => s
  | e :: rest, freed, deleted, s =>
    if requiredSpace ≤ freed ∨ MAX_DELETE_PER_CLEANUP ≤ deleted then s
    else if total - deleted ≤ MIN_FILES_TO_KEEP then s
    else evictOldestLoop workflowId total requiredSpace rest
      (freed + e.2.data.length) (deleted + 1) (delete s workflowId e.1).1

/-- MemoryStorage.cleanupOldestInWorkflow. -/
def cleanupOldestInWorkflow (s : Storage) (workflowId : String) (requiredSpace : Nat) :
    Storage :=
  match mapGet s.workflowCaches workflowId with
  | none => s
  | some wc =>
    let entries := sortAsc (fun e => e.2.uploadedAt) wc.cache
    evictOldestLoop workflowId entries.length requiredSpace entries 0 0 s

/-- The flat list of all files of all tenants, in iteration order. -/
def allFilesList (s : Storage) : List (String × String × MemoryFile) :=
  (s.workflowCaches.map (fun t => t.2.cache.map (fun e => (t.1, e.1, e.2)))).flatten

/-- The eviction loop of cleanupOldestGlobal. -/
def evictGlobalLoop (requiredSpace : Nat) :
    List (String × String × MemoryFile) → Nat → Nat → Storage → Storage
  | [], _, _, s => s
  | e :: rest, freed, deleted, s =>
    if requiredSpace ≤ freed ∨ MAX_DELETE_PER_CLEANUP ≤ deleted then s
    else evictGlobalLoop requiredSpace rest
      (freed + e.2.2.data.length) (deleted + 1) (delete s e.1 e.2.1).1

/-- MemoryStorage.cleanupOldestGlobal. -/
def cleanupOldestGlobal (s : Storage) (requiredSpace : Nat) : Storage :=
  evictGlobalLoop requiredSpace (sortAsc (fun e => e.2.2.uploadedAt) (allFilesList s)) 0 0 s

/-- The binary-search loop computing the insertion index into the
expiration queue (an upper-bound search on expiresAt). -/
def findInsertGo (q : List (String × Nat)) (expiresAt : Nat) :
    Nat → Nat → Int → Int → Nat
  | 0, insertIndex, _, _ => insertIndex
  | Nat.succ fuel, insertIndex, left, right =>
    if left ≤ right then
      let mid := (left + right) / 2
      match q.get? mid.toNat with
      | none => insertIndex
      | some e =>
        if e.2 ≤ expiresAt then findInsertGo q expiresAt fuel insertIndex (mid + 1) right
        else findInsertGo q expiresAt fuel mid.toNat left (mid - 1)
    else insertIndex

/-- The insertion index of uploadInternal's binary search. -/
def findInsertIndex (q : List (String × Nat)) (expiresAt : Nat) : Nat :=
  findInsertGo q expiresAt (q.length + 1) q.length 0 ((q.length : Int) - 1)

/-- Array.prototype.splice insertion at an index. -/
def spliceInsert {α : Type} (l : List α) (i : Nat) (e : α) : List α :=
  l.take i ++ e :: l.drop i

/-- The lazy global expiry trigger at the head of uploadInternal. -/
def uploadStep1 (now : Nat) (s : Storage) : Storage :=
  if truthyAnd s.nextGlobalExpirationTime (fun t => t ≤ now)
  then cleanupAllExpired now s else s

/-- The global capacity check of uploadInternal: expire, then evict the
globally oldest blobs if the new file still does not fit. -/
def uploadStep2 (now fileSize : Nat) (s : Storage) : Storage :=
  if GLOBAL_MAX_CACHE_SIZE < s.globalCacheSize + fileSize then
    (let sa := cleanupAllExpired now s
     if GLOBAL_MAX_CACHE_SIZE < sa.globalCacheSize + fileSize
     then cleanupOldestGlobal sa fileSize else sa)
  else s

/-- The tenant-level lazy expiry trigger of uploadInternal. -/
def uploadStep4 (now : Nat) (s : Storage) (workflowId : String) : Storage :=
  if truthyAnd ((mapGet s.workflowCaches workflowId).getD emptyWorkflowCache).nextExpirationTime
      (fun t => t ≤ now)
  then cleanupWorkflowExpired now s workflowId else s

/-- The tenant capacity check of uploadInternal: expire, then evict the
tenant's oldest blobs if the new file still does not fit. -/
def uploadStep5 (now fileSize : Nat) (s : Storage) (workflowId : String) : Storage :=
  if MAX_CACHE_SIZE <
      ((mapGet s.workflowCaches workflowId).getD emptyWorkflowCache).cacheSize + fileSize then
    (let sb := cleanupWorkflowExpired now s workflowId
     if MAX_CACHE_SIZE <
         ((mapGet sb.workflowCaches workflowId).getD emptyWorkflowCache).cacheSize + fileSize
     then cleanupOldestInWorkflow sb workflowId fileSize else sb)
  else s

/-- The cleanup and eviction phase of uploadInternal, before insertion. -/
def uploadPrepare (now fileSize : Nat) (s : Storage) (workflowId : String) : Storage :=
  uploadStep5 now fileSize
    (uploadStep4 now (getOrCreateWorkflowCache (uploadStep2 now fileSize (uploadStep1 now s)) workflowId)
      workflowId)
    workflowId

/-- The tail of uploadInternal once the collision adjustment fixed the
tenant record and the global counter: store the blob, bump the counters,
insert into the sorted expiration queue at the binary-search position,
and refresh the two next-expiration values. -/
def uploadFinish (expiresAt : Nat) (fileKey : String) (s : Storage) (workflowId : String)
    (wc6 : WorkflowCache) (g6 : Nat) (file : MemoryFile) : Storage :=
  let cache7 := mapSet wc6.cache fileKey file
  let queue8 := spliceInsert wc6.expirationQueue
    (findInsertIndex wc6.expirationQueue expiresAt) (fileKey, expiresAt)
  let wc8 : WorkflowCache :=
    { cache := cache7, cacheSize := wc6.cacheSize + file.data.length,
      nextExpirationTime := Option.map Prod.snd queue8.head?,
      expirationQueue := queue8 }
  let nextG : Option Nat :=
    match s.nextGlobalExpirationTime with
    | none => some expiresAt
    | some t =>
      if t = 0 then some expiresAt
      else if expiresAt < t then some expiresAt else some t
  { workflowCaches := mapSet s.workflowCaches workflowId wc8,
    globalCacheSize := g6 + file.data.length,
    nextGlobalExpirationTime := nextG }

/-- The insertion phase of uploadInternal, including the
replace-on-collision adjustment of the counters and the queue. -/
def uploadInsert (now expiresAt : Nat) (fileKey : String) (s : Storage)
    (workflowId : String) (data : List Nat) (contentType : String) : Storage :=
  let wc5 := (mapGet s.workflowCaches workflowId).getD emptyWorkflowCache
  let file : MemoryFile :=
    { data := data, contentType := contentType, uploadedAt := now, expiresAt := expiresAt }
  match mapGet wc5.cache fileKey with
  | some existing =>
    uploadFinish expiresAt fileKey s workflowId
      { wc5 with cacheSize := wc5.cacheSize - existing.data.length,
                 expirationQueue := eraseQueueKey wc5.expirationQueue fileKey }
      (s.globalCacheSize - existing.data.length) file
  | none => uploadFinish expiresAt fileKey s workflowId wc5 s.globalCacheSize file

/-- MemoryStorage.uploadInternal.  The randomly generated fileKey of the
source is passed as an explicit argument. -/
def uploadInternal (now : Nat) (fileKey : String) (s : Storage) (workflowId : String)
    (data : List Nat) (contentType : String) (ttl : Option Nat) :
    Storage × String × String :=
  (uploadInsert now (now + ttlOrDefault ttl) fileKey
     (uploadPrepare now data.length s workflowId) workflowId data contentType,
   fileKey, contentType)

/-- MemoryStorage.upload, the per-workflow serialization wrapper.  The
first argument is the settled outcome of the in-flight upload found in
uploadLocks at entry (`none` when no upload is in flight); `s` is the
storage state once that upload has settled, which is when the waiting
caller resumes. -/
def upload (existingLock : Option (Except Unit (String × String))) (now : Nat)
    (fileKey : String) (s : Storage) (workflowId : String) (data : List Nat)
    (contentType : String) (ttl : Option Nat) : Storage × String × String :=
  match existingLock with
  | some (Except.ok r) => (s, r.1, r.2)
  | some (Except.error _) => uploadInternal now fileKey s workflowId data contentType ttl
  | none => uploadInternal now fileKey s workflowId data contentType ttl

/-- MemoryStorage.download: a hit returns the stored bytes and content
type; an expired entry is deleted and reported as a miss (`none`). -/
def download (now : Nat) (s : Storage) (workflowId fileKey : String) :
    Storage × Option (List Nat × String) :=
  match mapGet s.workflowCaches workflowId with
  | none => (s, none)
  | some wc =>
    match mapGet wc.cache fileKey with
    | none => (s, none)
    | some file =>
      if file.expiresAt < now then ((delete s workflowId fileKey).1, none)
      else (s, some (file.data, file.contentType))

/-- MemoryStorage.clear, for one tenant or the whole store. -/
def clear (s : Storage) (workflowId : Option String) : Storage :=
  match workflowId with
  | some w =>
    match mapGet s.workflowCaches w with
    | none => s
    | some wc =>
      let g := wc.cache.foldl (fun acc e => acc - e.2.data.length) s.globalCacheSize
      let caches1 := mapSet s.workflowCaches w emptyWorkflowCache
      { s with workflowCaches := caches1, globalCacheSize := g }
  | none => { workflowCaches := [], globalCacheSize := 0, nextGlobalExpirationTime := none }

/-- The actual byte total of one tenant's live blobs. -/
def cacheTotal (c : List (String × MemoryFile)) : Nat :=
  (c.map (fun e => e.2.data.length)).sum

/-- The sum of the recorded per-tenant counters. -/
def tenantsTotal (ts : List (String × WorkflowCache)) : Nat :=
  (ts.map (fun t => t.2.cacheSize)).sum

/-- Math.abs of a difference of counters. -/
def absDiff (a b : Nat) : Nat := (a - b) + (b - a)

/-- The recomputed global byte total of validateCacheSize. -/
def globalActualTotal (s : Storage) : Nat :=
  (s.workflowCaches.map (fun t => cacheTotal t.2.cache)).sum

/-- MemoryStorage.validateCacheSize: self-healing reconciliation of the
recorded counters, returning whether a correction was applied. -/
def validateCacheSize (s : Storage) (workflowId : String) : Storage × Bool :=
  match mapGet s.workflowCaches workflowId with
  | none => (s, false)
  | some wc =>
    let actualSize := cacheTotal wc.cache
    if VALIDATION_THRESHOLD < absDiff wc.cacheSize actualSize then
      let wcFixed : WorkflowCache := { wc with cacheSize := actualSize }
      let s1 : Storage := { s with workflowCaches := mapSet s.workflowCaches workflowId wcFixed }
      let globalActual := globalActualTotal s1
      let s2 := if VALIDATION_THRESHOLD < absDiff s1.globalCacheSize globalActual
                then { s1 with globalCacheSize := globalActual } else s1
      (s2, true)
    else (s, false)

/-- MemoryStorage.getCacheSize. -/
def getCacheSize (s : Storage) (workflowId : Option String) : Nat :=
  match workflowId with
  | some w => (Option.map WorkflowCache.cacheSize (mapGet s.workflowCaches w)).getD 0
  | none => s.globalCacheSize

end MemoryStorage

/-- The store's initial (empty) static state. -/
def emptyStorage : Storage :=
  { workflowCaches := [], globalCacheSize := 0, nextGlobalExpirationTime := none }

/-- One external operation on the store, for reasoning about operation
sequences.  put carries the fileKey the generator produced and the
instant of the call. -/
inductive Op where
  | put (now : Nat) (fileKey workflowId : String) (data : List Nat)
        (contentType : String) (ttl : Option Nat)
  | get (now : Nat) (workflowId fileKey : String)
  | del (workflowId fileKey : String)
  | cleanupTenant (now : Nat) (workflowId : String)
  | cleanupAll (now : Nat)
  | evictTenant (workflowId : String) (requiredSpace : Nat)
  | evictGlobal (requiredSpace : Nat)
  | clearOp (workflowId : Option String)
  | validate (workflowId : String)

/-- The state transition of one operation. -/
def step (s : Storage) : Op → Storage
  | Op.put now k w d ct ttl => (MemoryStorage.uploadInternal now k s w d ct ttl).1
  | Op.get now w k => (MemoryStorage.download now s w k).1
  | Op.del w k => (MemoryStorage.delete s w k).1
  | Op.cleanupTenant now w => MemoryStorage.cleanupWorkflowExpired now s w
  | Op.cleanupAll now => MemoryStorage.cleanupAllExpired now s
  | Op.evictTenant w n => MemoryStorage.cleanupOldestInWorkflow s w n
  | Op.evictGlobal n => MemoryStorage.cleanupOldestGlobal s n
  | Op.clearOp w => MemoryStorage.clear s w
  | Op.validate w => (MemoryStorage.validateCacheSize s w).1

/-- Run a sequence of operations from a state. -/
def run (ops : List Op) (s : Storage) : Storage := ops.foldl step s

/-- The blob, if any, stored under a handle in a tenant's namespace. -/
def lookupFile (s : Storage) (workflowId fileKey : String) : Option MemoryFile :=
  match mapGet s.workflowCaches workflowId with
  | none => none
  | some wc => mapGet wc.cache fileKey

/-- Sum of a Nat measure of the values of an association list. -/
def sumVals {β : Type} (f : β → Nat) (l : List (String × β)) : Nat :=
  (l.map (fun p => f p.2)).sum

/-- Well-formedness: tenant keys are distinct and so are the file keys
inside each tenant, as they are for JavaScript Maps. -/
def WF (s : Storage) : Prop :=
  (s.workflowCaches.map Prod.fst).Nodup ∧
  ∀ p ∈ s.workflowCaches, (p.2.cache.map Prod.fst).Nodup

/-- Size accounting: every recorded per-tenant counter is the sum of its
live blob sizes, and the global counter is the sum of the tenant
counters. -/
def SizesOk (s : Storage) : Prop :=
  (∀ p ∈ s.workflowCaches, p.2.cacheSize = MemoryStorage.cacheTotal p.2.cache) ∧
  s.globalCacheSize = MemoryStorage.tenantsTotal s.workflowCaches

/-- The reachable-state invariant of the store. -/
def Inv (s : Storage) : Prop := WF s ∧ SizesOk s

theorem mapGet_mapSet_self {β : Type} (l : List (String × β)) (k : String) (v : β) :
    mapGet (mapSet l k v) k = some v := by
  induction l with
  | nil => simp [mapGet, mapSet]
  | cons h t ih =>
    by_cases hk : h.1 = k
    · simp [mapGet, mapSet, hk]
    · simp [mapGet, mapSet, hk, ih]

theorem mapGet_mapSet_ne {β : Type} (l : List (String × β)) (k k' : String) (v : β)
    (h : k' ≠ k) : mapGet (mapSet l k v) k' = mapGet l k' := by
  have hks : ¬ k = k' := fun hh => h hh.symm
  induction l with
  | nil => simp [mapGet, mapSet, hks]
  | cons hd t ih =>
    by_cases hk : hd.1 = k
    · have hk' : ¬ hd.1 = k' := by rw [hk]; exact hks
      simp [mapGet, mapSet, hk, hk', hks]
    · simp only [mapSet, hk, if_false, mapGet]
      by_cases hk' : hd.1 = k' <;> simp [hk', ih]

theorem mem_of_mapGet {β : Type} {l : List (String × β)} {k : String} {v : β}
    (h : mapGet l k = some v) : (k, v) ∈ l := by
  induction l with
  | nil => simp [mapGet] at h
  | cons hd t ih =>
    by_cases hk : hd.1 = k
    · simp [mapGet, hk] at h
      rcases hd with ⟨k₀, v₀⟩
      simp at hk
      simp [hk]
      exact Or.inl h.symm
    · simp [mapGet, hk] at h
      exact List.mem_cons_of_mem _ (ih h)

theorem mapGet_eq_none_iff {β : Type} (l : List (String × β)) (k : String) :
    mapGet l k = none ↔ k ∉ l.map Prod.fst := by
  induction l with
  | nil => simp [mapGet]
  | cons hd t ih =>
    simp only [List.map_cons, List.mem_cons, mapGet]
    by_cases hk : hd.1 = k
    · simp [hk]
    · have hks : ¬ k = hd.1 := fun hh => hk hh.symm
      simp [hk, hks, ih]

theorem keys_mapSet_of_get_some {β : Type} {l : List (String × β)} {k : String} {v₀ : β}
    (h : mapGet l k = some v₀) (v : β) :
    (mapSet l k v).map Prod.fst = l.map Prod.fst := by
  induction l with
  | nil => simp [mapGet] at h
  | cons hd t ih =>
    by_cases hk : hd.1 = k
    · simp [mapSet, hk]
    · simp [mapGet, hk] at h
      simp [mapSet, hk, ih h]

theorem keys_mapSet_of_get_none {β : Type} {l : List (String × β)} {k : String}
    (h : mapGet l k = none) (v : β) :
    (mapSet l k v).map Prod.fst = l.map Prod.fst ++ [k] := by
  induction l with
  | nil => simp [mapSet]
  | cons hd t ih =>
    by_cases hk : hd.1 = k
    · simp [mapGet, hk] at h
    · simp [mapGet, hk] at h
      simp [mapSet, hk, ih h]

theorem nodup_keys_mapSet {β : Type} {l : List (String × β)} (k : String) (v : β)
    (h : (l.map Prod.fst).Nodup) : ((mapSet l k v).map Prod.fst).Nodup := by
  cases hg : mapGet l k with
  | some v₀ => rw [keys_mapSet_of_get_some hg]; exact h
  | none =>
    rw [keys_mapSet_of_get_none hg]
    have hk : k ∉ l.map Prod.fst := (mapGet_eq_none_iff l k).mp hg
    simp [List.nodup_append, h, hk]

theorem mem_mapSet {β : Type} {l : List (String × β)} {k : String} {v : β}
    {p : String × β} (h : p ∈ mapSet l k v) : p ∈ l ∨ p = (k, v) := by
  induction l with
  | nil => simp [mapSet] at h; simp [h]
  | cons hd t ih =>
    by_cases hk : hd.1 = k
    · simp [mapSet, hk] at h
      rcases h with h | h
      · right; simp [h]
      · left; exact List.mem_cons_of_mem _ h
    · simp [mapSet, hk] at h
      rcases h with h | h
      · left; simp [h]
      · rcases ih h with h' | h'
        · left; exact List.mem_cons_of_mem _ h'
        · right; exact h'

theorem mapErase_sublist {β : Type} (l : List (String × β)) (k : String) :
    List.Sublist (mapErase l k) l := by
  induction l with
  | nil => simp [mapErase]
  | cons hd t ih =>
    by_cases hk : hd.1 = k
    · simp only [mapErase, hk, if_true]
      exact List.sublist_cons_self hd t
    · simp only [mapErase, hk, if_false]
      exact ih.cons₂ hd

theorem nodup_keys_mapErase {β : Type} {l : List (String × β)} (k : String)
    (h : (l.map Prod.fst).Nodup) : ((mapErase l k).map Prod.fst).Nodup :=
  h.sublist ((mapErase_sublist l k).map Prod.fst)

theorem mem_mapErase {β : Type} {l : List (String × β)} {k : String} {p : String × β}
    (h : p ∈ mapErase l k) : p ∈ l := (mapErase_sublist l k).subset h

theorem mapGet_mapErase_self {β : Type} {l : List (String × β)} {k : String}
    (h : (l.map Prod.fst).Nodup) : mapGet (mapErase l k) k = none := by
  induction l with
  | nil => simp [mapErase, mapGet]
  | cons hd t ih =>
    simp only [List.map_cons, List.nodup_cons] at h
    by_cases hk : hd.1 = k
    · simp only [mapErase, hk, if_true]
      rw [mapGet_eq_none_iff]
      exact hk ▸ h.1
    · simp only [mapErase, hk, if_false, mapGet]
      simp [hk, ih h.2]

theorem sumVals_mapSet_some {β : Type} (f : β → Nat) {l : List (String × β)} {k : String}
    {v : β} (h : mapGet l k = some v) (v' : β) :
    sumVals f (mapSet l k v') + f v = sumVals f l + f v' := by
  induction l with
  | nil => simp [mapGet] at h
  | cons hd t ih =>
    by_cases hk : hd.1 = k
    · simp [mapGet, hk] at h
      simp [mapSet, hk, sumVals, h]
      omega
    · simp [mapGet, hk] at h
      simp only [mapSet, hk, if_false]
      have := ih h
      simp only [sumVals, List.map_cons, List.sum_cons] at this ⊢
      omega

theorem sumVals_mapSet_none {β : Type} (f : β → Nat) {l : List (String × β)} {k : String}
    (h : mapGet l k = none) (v' : β) :
    sumVals f (mapSet l k v') = sumVals f l + f v' := by
  induction l with
  | nil => simp [mapSet, sumVals]
  | cons hd t ih =>
    by_cases hk : hd.1 = k
    · simp [mapGet, hk] at h
    · simp [mapGet, hk] at h
      simp only [mapSet, hk, if_false]
      have := ih h
      simp only [sumVals, List.map_cons, List.sum_cons] at this ⊢
      omega

theorem sumVals_mapErase {β : Type} (f : β → Nat) {l : List (String × β)} {k : String}
    {v : β} (h : mapGet l k = some v) :
    sumVals f (mapErase l k) + f v = sumVals f l := by
  induction l with
  | nil => simp [mapGet] at h
  | cons hd t ih =>
    by_cases hk : hd.1 = k
    · simp [mapGet, hk] at h
      simp [mapErase, hk, sumVals, h]
      omega
    · simp [mapGet, hk] at h
      simp only [mapErase, hk, if_false]
      have := ih h
      simp only [sumVals, List.map_cons, List.sum_cons] at this ⊢
      omega

theorem le_sumVals_of_mapGet {β : Type} (f : β → Nat) {l : List (String × β)} {k : String}
    {v : β} (h : mapGet l k = some v) : f v ≤ sumVals f l := by
  have hm := mem_of_mapGet h
  have : f v ∈ l.map (fun p => f p.2) := List.mem_map.mpr ⟨(k, v), hm, rfl⟩
  exact List.single_le_sum (fun _ _ => Nat.zero_le _) _ this

theorem cacheTotal_eq_sumVals (c : List (String × MemoryFile)) :
    MemoryStorage.cacheTotal c = sumVals (fun f => f.data.length) c := rfl

theorem tenantsTotal_eq_sumVals (ts : List (String × WorkflowCache)) :
    MemoryStorage.tenantsTotal ts = sumVals WorkflowCache.cacheSize ts := rfl

namespace MemoryStorage

theorem delete_eq_of_no_tenant {s : Storage} {w : String} (k : String)
    (h : mapGet s.workflowCaches w = none) : delete s w k = (s, false) := by
  simp [delete, h]

theorem delete_eq_of_no_file {s : Storage} {w : String} {wc : WorkflowCache} {k : String}
    (hw : mapGet s.workflowCaches w = some wc) (hf : mapGet wc.cache k = none) :
    delete s w k = (s, false) := by
  simp [delete, hw, hf]

theorem delete_spec {s : Storage} {w : String} {wc : WorkflowCache} {k : String}
    {f : MemoryFile} (hw : mapGet s.workflowCaches w = some wc)
    (hf : mapGet wc.cache k = some f) :
    ∃ wc1 : WorkflowCache,
      delete s w k = ({ workflowCaches := mapSet s.workflowCaches w wc1,
                        globalCacheSize := s.globalCacheSize - f.data.length,
                        nextGlobalExpirationTime := s.nextGlobalExpirationTime }, true) ∧
      wc1.cache = mapErase wc.cache k ∧
      wc1.cacheSize = wc.cacheSize - f.data.length := by
  simp only [delete, hw, hf]
  refine ⟨_, rfl, ?_, ?_⟩ <;> split <;> rfl

theorem delete_Inv {s : Storage} (w k : String) (h : Inv s) : Inv (delete s w k).1 := by
  obtain ⟨⟨hkeys, hcaches⟩, hsizes, hglobal⟩ := h
  cases hw : mapGet s.workflowCaches w with
  | none => rw [delete_eq_of_no_tenant k hw]; exact ⟨⟨hkeys, hcaches⟩, hsizes, hglobal⟩
  | some wc =>
    cases hf : mapGet wc.cache k with
    | none => rw [delete_eq_of_no_file hw hf]; exact ⟨⟨hkeys, hcaches⟩, hsizes, hglobal⟩
    | some f =>
      obtain ⟨wc1, heq, hc1, hs1⟩ := delete_spec hw hf
      rw [heq]
      have hwmem : (w, wc) ∈ s.workflowCaches := mem_of_mapGet hw
      have hwcnd : (wc.cache.map Prod.fst).Nodup := hcaches _ hwmem
      have hwcsize : wc.cacheSize = cacheTotal wc.cache := hsizes _ hwmem
      have hfle : f.data.length ≤ sumVals (fun fl => fl.data.length) wc.cache :=
        le_sumVals_of_mapGet (fun fl => fl.data.length) hf
      have hflen : f.data.length ≤ wc.cacheSize := by
        rw [hwcsize, cacheTotal_eq_sumVals]
        exact hfle
      refine ⟨⟨?_, ?_⟩, ?_, ?_⟩
      · rw [keys_mapSet_of_get_some hw]; exact hkeys
      · intro p hp
        rcases mem_mapSet hp with hp | hp
        · exact hcaches p hp
        · subst hp
          show ((wc1.cache).map Prod.fst).Nodup
          rw [hc1]
          exact nodup_keys_mapErase k hwcnd
      · intro p hp
        rcases mem_mapSet hp with hp | hp
        · exact hsizes p hp
        · subst hp
          show wc1.cacheSize = cacheTotal wc1.cache
          have hsub : sumVals (fun fl => fl.data.length) (mapErase wc.cache k) +
              f.data.length = sumVals (fun fl => fl.data.length) wc.cache :=
            sumVals_mapErase (fun fl => fl.data.length) hf
          rw [hc1, hs1, cacheTotal_eq_sumVals]
          rw [cacheTotal_eq_sumVals] at hwcsize
          omega
      · show s.globalCacheSize - f.data.length = tenantsTotal (mapSet s.workflowCaches w wc1)
        have hset := sumVals_mapSet_some WorkflowCache.cacheSize hw wc1
        have hle2 := le_sumVals_of_mapGet WorkflowCache.cacheSize hw
        rw [tenantsTotal_eq_sumVals] at hglobal ⊢
        have hs1' : wc1.cacheSize = wc.cacheSize - f.data.length := hs1
        omega

theorem delete_size_le (s : Storage) (w k : String) (wq : Option String) :
    getCacheSize (delete s w k).1 wq ≤ getCacheSize s wq := by
  cases hw : mapGet s.workflowCaches w with
  | none => rw [delete_eq_of_no_tenant k hw]
  | some wc =>
    cases hf : mapGet wc.cache k with
    | none => rw [delete_eq_of_no_file hw hf]
    | some f =>
      obtain ⟨wc1, heq, hc1, hs1⟩ := delete_spec hw hf
      rw [heq]
      cases wq with
      | none => simp [getCacheSize]
      | some w' =>
        by_cases hww : w' = w
        · subst hww
          simp [getCacheSize, mapGet_mapSet_self, hw, hs1]
        · simp [getCacheSize, mapGet_mapSet_ne _ _ _ _ hww]

theorem foldl_delete_Inv (l : List (String × String)) :
    ∀ s : Storage, Inv s → Inv (l.foldl (fun st p => (delete st p.1 p.2).1) s) := by
  induction l with
  | nil => intro s h; exact h
  | cons hd t ih => intro s h; exact ih _ (delete_Inv hd.1 hd.2 h)

theorem foldl_delete_size_le (l : List (String × String)) :
    ∀ (s : Storage) (wq : Option String),
      getCacheSize (l.foldl (fun st p => (delete st p.1 p.2).1) s) wq ≤ getCacheSize s wq := by
  induction l with
  | nil => intro s wq; exact Nat.le_refl _
  | cons hd t ih =>
    intro s wq
    exact Nat.le_trans (ih _ wq) (delete_size_le s hd.1 hd.2 wq)

theorem cleanupExpiredLoop_Inv (now : Nat) (w : String) :
    ∀ (fuel : Nat) (s : Storage), Inv s → Inv (cleanupExpiredLoop now w fuel s) := by
  intro fuel
  induction fuel with
  | zero => intro s h; exact h
  | succ n ih =>
    intro s h
    simp only [cleanupExpiredLoop]
    split
    · exact h
    · split
      · exact h
      · split
        · exact h
        · exact ih _ (delete_Inv w _ h)

theorem cleanupExpiredLoop_size_le (now : Nat) (w : String) :
    ∀ (fuel : Nat) (s : Storage) (wq : Option String),
      getCacheSize (cleanupExpiredLoop now w fuel s) wq ≤ getCacheSize s wq := by
  intro fuel
  induction fuel with
  | zero => intro s wq; exact Nat.le_refl _
  | succ n ih =>
    intro s wq
    simp only [cleanupExpiredLoop]
    split
    · exact Nat.le_refl _
    · split
      · exact Nat.le_refl _
      · split
        · exact Nat.le_refl _
        · exact Nat.le_trans (ih _ wq) (delete_size_le s w _ wq)

theorem cleanupWorkflowExpired_Inv (now : Nat) {s : Storage} (w : String) (h : Inv s) :
    Inv (cleanupWorkflowExpired now s w) := by
  unfold cleanupWorkflowExpired
  split
  · exact h
  · split
    · exact h
    · split
      · exact h
      · exact cleanupExpiredLoop_Inv now w _ s h

theorem cleanupWorkflowExpired_size_le (now : Nat) (s : Storage) (w : String)
    (wq : Option String) :
    getCacheSize (cleanupWorkflowExpired now s w) wq ≤ getCacheSize s wq := by
  unfold cleanupWorkflowExpired
  split
  · exact Nat.le_refl _
  · split
    · exact Nat.le_refl _
    · split
      · exact Nat.le_refl _
      · exact cleanupExpiredLoop_size_le now w _ s wq

theorem phase1Val_cache (now : Nat) (wc : WorkflowCache) :
    (phase1Val now wc).cache = wc.cache := by
  unfold phase1Val
  split <;> rfl

theorem phase1Val_cacheSize (now : Nat) (wc : WorkflowCache) :
    (phase1Val now wc).cacheSize = wc.cacheSize := by
  unfold phase1Val
  split <;> rfl

theorem mapGet_map_snd {β γ : Type} (g : β → γ) (l : List (String × β)) (k : String) :
    mapGet (l.map (fun p => (p.1, g p.2))) k = (mapGet l k).map g := by
  induction l with
  | nil => rfl
  | cons hd t ih => by_cases hk : hd.1 = k <;> simp [mapGet, hk, ih]

theorem keys_map_snd {β γ : Type} (g : β → γ) (l : List (String × β)) :
    (l.map (fun p => (p.1, g p.2))).map Prod.fst = l.map Prod.fst := by
  induction l with
  | nil => rfl
  | cons hd t ih => simp [ih]

theorem sumVals_map_snd {β γ : Type} (f : γ → Nat) (g : β → γ) (l : List (String × β)) :
    sumVals f (l.map (fun p => (p.1, g p.2))) = sumVals (fun v => f (g v)) l := by
  induction l with
  | nil => rfl
  | cons hd t ih => simp [sumVals] at ih ⊢; omega

theorem foldl_processTenantExpiry_caches (now : Nat) (l : List (String × WorkflowCache)) :
    ∀ acc : CleanupAcc, (l.foldl (processTenantExpiry now) acc).caches
      = acc.caches ++ l.map (fun p => (p.1, phase1Val now p.2)) := by
  induction l with
  | nil => intro acc; simp
  | cons hd t ih => intro acc; simp [processTenantExpiry, ih]

theorem phase1_storage_Inv (now : Nat) {s : Storage} (h : Inv s) :
    Inv { s with workflowCaches := s.workflowCaches.map (fun p => (p.1, phase1Val now p.2)) } := by
  obtain ⟨⟨hkeys, hcaches⟩, hsizes, hglobal⟩ := h
  refine ⟨⟨?_, ?_⟩, ?_, ?_⟩
  · show ((s.workflowCaches.map (fun p => (p.1, phase1Val now p.2))).map Prod.fst).Nodup
    rw [keys_map_snd]
    exact hkeys
  · intro p hp
    obtain ⟨q, hq, hpq⟩ := List.mem_map.mp hp
    have : p.2.cache = q.2.cache := by rw [← hpq]; exact phase1Val_cache now q.2
    rw [this]
    exact hcaches q hq
  · intro p hp
    obtain ⟨q, hq, hpq⟩ := List.mem_map.mp hp
    have h1 : p.2.cache = q.2.cache := by rw [← hpq]; exact phase1Val_cache now q.2
    have h2 : p.2.cacheSize = q.2.cacheSize := by rw [← hpq]; exact phase1Val_cacheSize now q.2
    rw [h1, h2]
    exact hsizes q hq
  · show s.globalCacheSize
      = tenantsTotal (s.workflowCaches.map (fun p => (p.1, phase1Val now p.2)))
    rw [tenantsTotal_eq_sumVals, sumVals_map_snd]
    have he : (fun v => WorkflowCache.cacheSize (phase1Val now v)) = WorkflowCache.cacheSize :=
      funext fun v => phase1Val_cacheSize now v
    rw [he, ← tenantsTotal_eq_sumVals]
    exact hglobal

theorem phase1_getCacheSize (now : Nat) (s : Storage) (wq : Option String) :
    getCacheSize
      { s with workflowCaches := s.workflowCaches.map (fun p => (p.1, phase1Val now p.2)) } wq
    = getCacheSize s wq := by
  cases wq with
  | none => rfl
  | some w =>
    show (Option.map WorkflowCache.cacheSize
        (mapGet (s.workflowCaches.map (fun p => (p.1, phase1Val now p.2))) w)).getD 0
      = (Option.map WorkflowCache.cacheSize (mapGet s.workflowCaches w)).getD 0
    rw [mapGet_map_snd]
    cases mapGet s.workflowCaches w <;> simp [phase1Val_cacheSize]

theorem cleanupAllExpired_Inv (now : Nat) {s : Storage} (h : Inv s) :
    Inv (cleanupAllExpired now s) := by
  simp only [cleanupAllExpired]
  split
  · exact h
  · rw [foldl_processTenantExpiry_caches]
    simp only [List.nil_append]
    exact foldl_delete_Inv _ _ (phase1_storage_Inv now h)

theorem cleanupAllExpired_size_le (now : Nat) (s : Storage) (wq : Option String) :
    getCacheSize (cleanupAllExpired now s) wq ≤ getCacheSize s wq := by
  simp only [cleanupAllExpired]
  split
  · exact Nat.le_refl _
  · rw [foldl_processTenantExpiry_caches]
    simp only [List.nil_append]
    calc getCacheSize (List.foldl (fun st p => (delete st p.1 p.2).1)
          { s with workflowCaches := s.workflowCaches.map (fun p => (p.1, phase1Val now p.2)) }
          (List.foldl (processTenantExpiry now)
            { caches := [], expired := [], minExpiration := none } s.workflowCaches).expired) wq
        ≤ getCacheSize
          { s with workflowCaches := s.workflowCaches.map (fun p => (p.1, phase1Val now p.2)) } wq :=
          foldl_delete_size_le _ _ wq
      _ = getCacheSize s wq := phase1_getCacheSize now s wq

theorem evictOldestLoop_Inv (w : String) (total req : Nat) :
    ∀ (entries : List (String × MemoryFile)) (freed deleted : Nat) (s : Storage), Inv s →
      Inv (evictOldestLoop w total req entries freed deleted s) := by
  intro entries
  induction entries with
  | nil => intro freed deleted s h; exact h
  | cons e rest ih =>
    intro freed deleted s h
    simp only [evictOldestLoop]
    split
    · exact h
    · split
      · exact h
      · exact ih _ _ _ (delete_Inv w e.1 h)

theorem evictOldestLoop_size_le (w : String) (total req : Nat) :
    ∀ (entries : List (String × MemoryFile)) (freed deleted : Nat) (s : Storage)
      (wq : Option String),
      getCacheSize (evictOldestLoop w total req entries freed deleted s) wq
        ≤ getCacheSize s wq := by
  intro entries
  induction entries with
  | nil => intro freed deleted s wq; exact Nat.le_refl _
  | cons e rest ih =>
    intro freed deleted s wq
    simp only [evictOldestLoop]
    split
    · exact Nat.le_refl _
    · split
      · exact Nat.le_refl _
      · exact Nat.le_trans (ih _ _ _ wq) (delete_size_le s w e.1 wq)

theorem cleanupOldestInWorkflow_Inv {s : Storage} (w : String) (req : Nat) (h : Inv s) :
    Inv (cleanupOldestInWorkflow s w req) := by
  unfold cleanupOldestInWorkflow
  split
  · exact h
  · exact evictOldestLoop_Inv w _ req _ 0 0 s h

theorem cleanupOldestInWorkflow_size_le (s : Storage) (w : String) (req : Nat)
    (wq : Option String) :
    getCacheSize (cleanupOldestInWorkflow s w req) wq ≤ getCacheSize s wq := by
  unfold cleanupOldestInWorkflow
  split
  · exact Nat.le_refl _
  · exact evictOldestLoop_size_le w _ req _ 0 0 s wq

theorem evictGlobalLoop_Inv (req : Nat) :
    ∀ (entries : List (String × String × MemoryFile)) (freed deleted : Nat) (s : Storage),
      Inv s → Inv (evictGlobalLoop req entries freed deleted s) := by
  intro entries
  induction entries with
  | nil => intro freed deleted s h; exact h
  | cons e rest ih =>
    intro freed deleted s h
    simp only [evictGlobalLoop]
    split
    · exact h
    · exact ih _ _ _ (delete_Inv e.1 e.2.1 h)

theorem evictGlobalLoop_size_le (req : Nat) :
    ∀ (entries : List (String × String × MemoryFile)) (freed deleted : Nat) (s : Storage)
      (wq : Option String),
      getCacheSize (evictGlobalLoop req entries freed deleted s) wq ≤ getCacheSize s wq := by
  intro entries
  induction entries with
  | nil => intro freed deleted s wq; exact Nat.le_refl _
  | cons e rest ih =>
    intro freed deleted s wq
    simp only [evictGlobalLoop]
    split
    · exact Nat.le_refl _
    · exact Nat.le_trans (ih _ _ _ wq) (delete_size_le s e.1 e.2.1 wq)

theorem cleanupOldestGlobal_Inv {s : Storage} (req : Nat) (h : Inv s) :
    Inv (cleanupOldestGlobal s req) :=
  evictGlobalLoop_Inv req _ 0 0 s h

theorem cleanupOldestGlobal_size_le (s : Storage) (req : Nat) (wq : Option String) :
    getCacheSize (cleanupOldestGlobal s req) wq ≤ getCacheSize s wq :=
  evictGlobalLoop_size_le req _ 0 0 s wq

theorem download_Inv (now : Nat) {s : Storage} (w k : String) (h : Inv s) :
    Inv (download now s w k).1 := by
  unfold download
  split
  · exact h
  · split
    · exact h
    · split
      · exact delete_Inv w k h
      · exact h

theorem download_size_le (now : Nat) (s : Storage) (w k : String) (wq : Option String) :
    getCacheSize (download now s w k).1 wq ≤ getCacheSize s wq := by
  unfold download
  split
  · exact Nat.le_refl _
  · split
    · exact Nat.le_refl _
    · split
      · exact delete_size_le s w k wq
      · exact Nat.le_refl _

theorem delete_keys_eq (s : Storage) (w k : String) :
    (delete s w k).1.workflowCaches.map Prod.fst = s.workflowCaches.map Prod.fst := by
  cases hw : mapGet s.workflowCaches w with
  | none => rw [delete_eq_of_no_tenant k hw]
  | some wc =>
    cases hf : mapGet wc.cache k with
    | none => rw [delete_eq_of_no_file hw hf]
    | some f =>
      obtain ⟨wc1, heq, hc1, hs1⟩ := delete_spec hw hf
      rw [heq]
      exact keys_mapSet_of_get_some hw wc1

theorem getOrCreateWorkflowCache_Inv {s : Storage} (w : String) (h : Inv s) :
    Inv (getOrCreateWorkflowCache s w) := by
  obtain ⟨⟨hkeys, hcaches⟩, hsizes, hglobal⟩ := h
  unfold getOrCreateWorkflowCache
  cases hw : mapGet s.workflowCaches w with
  | some wc => exact ⟨⟨hkeys, hcaches⟩, hsizes, hglobal⟩
  | none =>
    refine ⟨⟨?_, ?_⟩, ?_, ?_⟩
    · exact nodup_keys_mapSet w emptyWorkflowCache hkeys
    · intro p hp
      rcases mem_mapSet hp with hp | hp
      · exact hcaches p hp
      · subst hp; exact List.nodup_nil
    · intro p hp
      rcases mem_mapSet hp with hp | hp
      · exact hsizes p hp
      · subst hp; rfl
    · show s.globalCacheSize = tenantsTotal (mapSet s.workflowCaches w emptyWorkflowCache)
      rw [tenantsTotal_eq_sumVals, sumVals_mapSet_none WorkflowCache.cacheSize hw]
      rw [tenantsTotal_eq_sumVals] at hglobal
      have h0 : emptyWorkflowCache.cacheSize = 0 := rfl
      omega

theorem uploadStep1_Inv (now : Nat) {s : Storage} (h : Inv s) : Inv (uploadStep1 now s) := by
  unfold uploadStep1
  split
  · exact cleanupAllExpired_Inv now h
  · exact h

theorem uploadStep2_Inv (now fileSize : Nat) {s : Storage} (h : Inv s) :
    Inv (uploadStep2 now fileSize s) := by
  unfold uploadStep2
  split
  · dsimp only
    split
    · exact cleanupOldestGlobal_Inv fileSize (cleanupAllExpired_Inv now h)
    · exact cleanupAllExpired_Inv now h
  · exact h

theorem uploadStep4_Inv (now : Nat) {s : Storage} (w : String) (h : Inv s) :
    Inv (uploadStep4 now s w) := by
  unfold uploadStep4
  split
  · exact cleanupWorkflowExpired_Inv now w h
  · exact h

theorem uploadStep5_Inv (now fileSize : Nat) {s : Storage} (w : String) (h : Inv s) :
    Inv (uploadStep5 now fileSize s w) := by
  unfold uploadStep5
  split
  · dsimp only
    split
    · exact cleanupOldestInWorkflow_Inv w fileSize (cleanupWorkflowExpired_Inv now w h)
    · exact cleanupWorkflowExpired_Inv now w h
  · exact h

theorem uploadPrepare_Inv (now fileSize : Nat) {s : Storage} (w : String) (h : Inv s) :
    Inv (uploadPrepare now fileSize s w) :=
  uploadStep5_Inv now fileSize w
    (uploadStep4_Inv now w
      (getOrCreateWorkflowCache_Inv w (uploadStep2_Inv now fileSize (uploadStep1_Inv now h))))

theorem insertInv_aux (k w : String) (file : MemoryFile) {s : Storage}
    (cache6 : List (String × MemoryFile)) (size7 g7 : Nat) (q8 : List (String × Nat))
    (n8 m : Option Nat)
    (hkeys : (s.workflowCaches.map Prod.fst).Nodup)
    (hcaches : ∀ p ∈ s.workflowCaches, (p.2.cache.map Prod.fst).Nodup)
    (hsizes : ∀ p ∈ s.workflowCaches, p.2.cacheSize = cacheTotal p.2.cache)
    (hnd6 : (cache6.map Prod.fst).Nodup)
    (hsz : size7 = cacheTotal (mapSet cache6 k file))
    (hgs : ∀ old, mapGet s.workflowCaches w = some old →
      g7 + old.cacheSize = tenantsTotal s.workflowCaches + size7)
    (hgn : mapGet s.workflowCaches w = none →
      g7 = tenantsTotal s.workflowCaches + size7) :
    Inv { workflowCaches := mapSet s.workflowCaches w
            { cache := mapSet cache6 k file, cacheSize := size7,
              nextExpirationTime := n8, expirationQueue := q8 },
          globalCacheSize := g7, nextGlobalExpirationTime := m } := by
  refine ⟨⟨?_, ?_⟩, ?_, ?_⟩
  · exact nodup_keys_mapSet w _ hkeys
  · intro p hp
    rcases mem_mapSet hp with hp | hp
    · exact hcaches p hp
    · subst hp
      exact nodup_keys_mapSet k _ hnd6
  · intro p hp
    rcases mem_mapSet hp with hp | hp
    · exact hsizes p hp
    · subst hp
      exact hsz
  · show g7 = tenantsTotal (mapSet s.workflowCaches w _)
    rw [tenantsTotal_eq_sumVals]
    cases hw : mapGet s.workflowCaches w with
    | none =>
      rw [sumVals_mapSet_none WorkflowCache.cacheSize hw]
      have h2 := hgn hw
      rw [tenantsTotal_eq_sumVals] at h2
      show g7 = sumVals WorkflowCache.cacheSize s.workflowCaches + size7
      omega
    | some old =>
      have hset : sumVals WorkflowCache.cacheSize
            (mapSet s.workflowCaches w (⟨mapSet cache6 k file, size7, n8, q8⟩ : WorkflowCache))
            + old.cacheSize
          = sumVals WorkflowCache.cacheSize s.workflowCaches + size7 :=
        sumVals_mapSet_some WorkflowCache.cacheSize hw _
      have := hgs old hw
      rw [tenantsTotal_eq_sumVals] at this
      omega

theorem uploadInsert_Inv (now expiresAt : Nat) (k : String) {s : Storage} (w : String)
    (d : List Nat) (ct : String) (h : Inv s) : Inv (uploadInsert now expiresAt k s w d ct) := by
  obtain ⟨⟨hkeys, hcaches⟩, hsizes, hglobal⟩ := h
  unfold uploadInsert
  cases hw : mapGet s.workflowCaches w with
  | none =>
    have hc : mapGet (emptyWorkflowCache).cache k = none := rfl
    simp only [hw, Option.getD_none, hc, uploadFinish]
    refine insertInv_aux k w _ _ _ _ _ _ _ hkeys hcaches hsizes List.nodup_nil ?_ ?_ ?_
    · show emptyWorkflowCache.cacheSize + d.length = _
      rw [cacheTotal_eq_sumVals, sumVals_mapSet_none (fun fl => fl.data.length) hc]
      rfl
    · intro old hold
      rw [hw] at hold
      cases hold
    · intro _
      rw [hglobal]
      have h0 : emptyWorkflowCache.cacheSize = 0 := rfl
      omega
  | some wc =>
    have hwmem : (w, wc) ∈ s.workflowCaches := mem_of_mapGet hw
    have hwcnd : (wc.cache.map Prod.fst).Nodup := hcaches _ hwmem
    have hwcsize : wc.cacheSize = cacheTotal wc.cache := hsizes _ hwmem
    have hwcle : wc.cacheSize ≤ sumVals WorkflowCache.cacheSize s.workflowCaches :=
      le_sumVals_of_mapGet WorkflowCache.cacheSize hw
    cases hc : mapGet wc.cache k with
    | none =>
      simp only [hw, Option.getD_some, hc, uploadFinish]
      refine insertInv_aux k w _ _ _ _ _ _ _ hkeys hcaches hsizes hwcnd ?_ ?_ ?_
      · show wc.cacheSize + d.length = _
        rw [cacheTotal_eq_sumVals, sumVals_mapSet_none (fun fl => fl.data.length) hc]
        rw [hwcsize, cacheTotal_eq_sumVals]
      · intro old hold
        rw [hw] at hold
        cases hold
        rw [hglobal]
        omega
      · intro hold
        rw [hw] at hold
        cases hold
    | some existing =>
      have hele : existing.data.length ≤ sumVals (fun fl => fl.data.length) wc.cache :=
        le_sumVals_of_mapGet (fun fl => fl.data.length) hc
      have helen : existing.data.length ≤ wc.cacheSize := by
        rw [hwcsize, cacheTotal_eq_sumVals]; exact hele
      have hgle : wc.cacheSize ≤ s.globalCacheSize := by
        rw [hglobal, tenantsTotal_eq_sumVals]; exact hwcle
      simp only [hw, Option.getD_some, hc, uploadFinish]
      refine insertInv_aux k w _ _ _ _ _ _ _ hkeys hcaches hsizes hwcnd ?_ ?_ ?_
      · show wc.cacheSize - existing.data.length + d.length = _
        have hset : sumVals (fun fl => fl.data.length) (mapSet wc.cache k
            { data := d, contentType := ct, uploadedAt := now, expiresAt := expiresAt })
            + existing.data.length
          = sumVals (fun fl => fl.data.length) wc.cache + d.length :=
          sumVals_mapSet_some (fun fl => fl.data.length) hc _
        rw [cacheTotal_eq_sumVals, hwcsize, cacheTotal_eq_sumVals]
        omega
      · intro old hold
        rw [hw] at hold
        cases hold
        rw [hglobal]
        omega
      · intro hold
        rw [hw] at hold
        cases hold

theorem uploadInternal_Inv (now : Nat) (k : String) {s : Storage} (w : String)
    (d : List Nat) (ct : String) (ttl : Option Nat) (h : Inv s) :
    Inv (uploadInternal now k s w d ct ttl).1 :=
  uploadInsert_Inv now (now + ttlOrDefault ttl) k w d ct
    (uploadPrepare_Inv now d.length w h)

theorem foldl_sub_lengths (g : Nat) (l : List (String × MemoryFile)) :
    l.foldl (fun acc e => acc - e.2.data.length) g = g - cacheTotal l := by
  induction l generalizing g with
  | nil => simp [cacheTotal]
  | cons hd t ih =>
    simp only [List.foldl_cons, ih]
    rw [cacheTotal_eq_sumVals, cacheTotal_eq_sumVals]
    simp [sumVals]
    omega

theorem clear_none_eq (s : Storage) :
    clear s none
      = { workflowCaches := [], globalCacheSize := 0, nextGlobalExpirationTime := none } := rfl

theorem clear_some_eq_of_no_tenant {s : Storage} {w : String}
    (hw : mapGet s.workflowCaches w = none) : clear s (some w) = s := by
  simp [clear, hw]

theorem clear_some_eq {s : Storage} {w : String} {wc : WorkflowCache}
    (hw : mapGet s.workflowCaches w = some wc) :
    clear s (some w)
      = { workflowCaches := mapSet s.workflowCaches w emptyWorkflowCache,
          globalCacheSize := s.globalCacheSize - cacheTotal wc.cache,
          nextGlobalExpirationTime := s.nextGlobalExpirationTime } := by
  simp [clear, hw, foldl_sub_lengths]

theorem clear_Inv {s : Storage} (wq : Option String) (h : Inv s) : Inv (clear s wq) := by
  obtain ⟨⟨hkeys, hcaches⟩, hsizes, hglobal⟩ := h
  cases wq with
  | none =>
    rw [clear_none_eq]
    refine ⟨⟨List.nodup_nil, ?_⟩, ?_, rfl⟩ <;> intro p hp <;> simp at hp
  | some w =>
    cases hw : mapGet s.workflowCaches w with
    | none => rw [clear_some_eq_of_no_tenant hw]; exact ⟨⟨hkeys, hcaches⟩, hsizes, hglobal⟩
    | some wc =>
      rw [clear_some_eq hw]
      have hwmem : (w, wc) ∈ s.workflowCaches := mem_of_mapGet hw
      have hwcsize : wc.cacheSize = cacheTotal wc.cache := hsizes _ hwmem
      have hwcle : wc.cacheSize ≤ sumVals WorkflowCache.cacheSize s.workflowCaches :=
        le_sumVals_of_mapGet WorkflowCache.cacheSize hw
      refine ⟨⟨?_, ?_⟩, ?_, ?_⟩
      · rw [keys_mapSet_of_get_some hw]
        exact hkeys
      · intro p hp
        rcases mem_mapSet hp with hp | hp
        · exact hcaches p hp
        · subst hp; exact List.nodup_nil
      · intro p hp
        rcases mem_mapSet hp with hp | hp
        · exact hsizes p hp
        · subst hp; rfl
      · show s.globalCacheSize - cacheTotal wc.cache
          = tenantsTotal (mapSet s.workflowCaches w emptyWorkflowCache)
        rw [tenantsTotal_eq_sumVals]
        have hset : sumVals WorkflowCache.cacheSize
              (mapSet s.workflowCaches w emptyWorkflowCache) + wc.cacheSize
            = sumVals WorkflowCache.cacheSize s.workflowCaches
              + WorkflowCache.cacheSize emptyWorkflowCache :=
          sumVals_mapSet_some WorkflowCache.cacheSize hw emptyWorkflowCache
        have hempty : WorkflowCache.cacheSize emptyWorkflowCache = 0 := rfl
        rw [tenantsTotal_eq_sumVals] at hglobal
        rw [← hwcsize]
        omega

theorem validateCacheSize_of_Inv {s : Storage} (w : String) (h : Inv s) :
    validateCacheSize s w = (s, false) := by
  obtain ⟨⟨hkeys, hcaches⟩, hsizes, hglobal⟩ := h
  cases hw : mapGet s.workflowCaches w with
  | none => simp [validateCacheSize, hw]
  | some wc =>
    have hwcsize : wc.cacheSize = cacheTotal wc.cache := hsizes _ (mem_of_mapGet hw)
    have habs : absDiff wc.cacheSize (cacheTotal wc.cache) = 0 := by
      rw [hwcsize]; unfold absDiff; omega
    simp [validateCacheSize, hw, habs, VALIDATION_THRESHOLD]

theorem validateCacheSize_Inv {s : Storage} (w : String) (h : Inv s) :
    Inv (validateCacheSize s w).1 := by
  rw [validateCacheSize_of_Inv w h]
  exact h

theorem step_Inv {s : Storage} (op : Op) (h : Inv s) : Inv (step s op) := by
  cases op with
  | put now k w d ct ttl => exact uploadInternal_Inv now k w d ct ttl h
  | get now w k => exact download_Inv now w k h
  | del w k => exact delete_Inv w k h
  | cleanupTenant now w => exact cleanupWorkflowExpired_Inv now w h
  | cleanupAll now => exact cleanupAllExpired_Inv now h
  | evictTenant w n => exact cleanupOldestInWorkflow_Inv w n h
  | evictGlobal n => exact cleanupOldestGlobal_Inv n h
  | clearOp w => exact clear_Inv w h
  | validate w => exact validateCacheSize_Inv w h

end MemoryStorage

theorem emptyStorage_Inv : Inv emptyStorage := by
  refine ⟨⟨List.nodup_nil, ?_⟩, ?_, rfl⟩ <;> intro p hp <;> simp [emptyStorage] at hp

theorem run_Inv (ops : List Op) : ∀ {s : Storage}, Inv s → Inv (run ops s) := by
  induction ops with
  | nil => intro s h; exact h
  | cons op rest ih => intro s h; exact ih (MemoryStorage.step_Inv op h)

theorem lookupFile_some {s : Storage} {w k : String} {f : MemoryFile}
    (h : lookupFile s w k = some f) :
    ∃ wc, mapGet s.workflowCaches w = some wc ∧ mapGet wc.cache k = some f := by
  unfold lookupFile at h
  split at h
  · cases h
  · rename_i wc hw
    exact ⟨wc, hw, h⟩

namespace MemoryStorage

theorem download_miss_of_no_tenant {s : Storage} {w : String} (now : Nat) (k : String)
    (hw : mapGet s.workflowCaches w = none) : download now s w k = (s, none) := by
  simp [download, hw]

theorem download_miss_of_no_file {s : Storage} {w : String} {wc : WorkflowCache} {k : String}
    (now : Nat) (hw : mapGet s.workflowCaches w = some wc)
    (hf : mapGet wc.cache k = none) : download now s w k = (s, none) := by
  simp [download, hw, hf]

theorem download_hit {s : Storage} {w : String} {wc : WorkflowCache} {k : String}
    {f : MemoryFile} (now : Nat) (hw : mapGet s.workflowCaches w = some wc)
    (hf : mapGet wc.cache k = some f) (hnot : ¬ f.expiresAt < now) :
    download now s w k = (s, some (f.data, f.contentType)) := by
  simp [download, hw, hf, hnot]

theorem download_expired {s : Storage} {w : String} {wc : WorkflowCache} {k : String}
    {f : MemoryFile} (now : Nat) (hw : mapGet s.workflowCaches w = some wc)
    (hf : mapGet wc.cache k = some f) (hexp : f.expiresAt < now) :
    download now s w k = ((delete s w k).1, none) := by
  simp [download, hw, hf, hexp]

theorem uploadFinish_lookup (expiresAt : Nat) (k : String) (s : Storage) (w : String)
    (wc6 : WorkflowCache) (g6 : Nat) (file : MemoryFile) :
    lookupFile (uploadFinish expiresAt k s w wc6 g6 file) w k = some file := by
  simp [uploadFinish, lookupFile, mapGet_mapSet_self]

theorem uploadInsert_lookup (now expiresAt : Nat) (k : String) (s : Storage) (w : String)
    (d : List Nat) (ct : String) :
    lookupFile (uploadInsert now expiresAt k s w d ct) w k
      = some { data := d, contentType := ct, uploadedAt := now, expiresAt := expiresAt } := by
  unfold uploadInsert
  dsimp only
  split
  · exact uploadFinish_lookup _ _ _ _ _ _ _
  · exact uploadFinish_lookup _ _ _ _ _ _ _

theorem uploadInternal_lookup (now : Nat) (k : String) (s : Storage) (w : String)
    (d : List Nat) (ct : String) (ttl : Option Nat) :
    lookupFile (uploadInternal now k s w d ct ttl).1 w k
      = some { data := d, contentType := ct, uploadedAt := now,
               expiresAt := now + ttlOrDefault ttl } :=
  uploadInsert_lookup now (now + ttlOrDefault ttl) k
    (uploadPrepare now d.length s w) w d ct

theorem uploadInternal_key (now : Nat) (k : String) (s : Storage) (w : String)
    (d : List Nat) (ct : String) (ttl : Option Nat) :
    (uploadInternal now k s w d ct ttl).2 = (k, ct) := rfl

end MemoryStorage

/-- Concrete tenant and handle names for witnesses and counterexamples. -/
def tenantOne : String := "w1"

def tenantTwo : String := "w2"

def keyOne : String := "k1"

def keyTwo : String := "k2"

def pngType : String := "image/png"

/-- Build a MemoryFile record (single-line helper for statements). -/
def mkFile (d : List Nat) (ct : String) (up exp : Nat) : MemoryFile :=
  { data := d, contentType := ct, uploadedAt := up, expiresAt := exp }

/-- A reachable one-blob state shared by several witnesses: tenant w1
holds one 1-byte blob under k1, uploaded at 0 with a 100 ms ttl. -/
def oneBlobState : Storage :=
  (MemoryStorage.uploadInternal 0 keyOne emptyStorage tenantOne [5] pngType (some 100)).1

/-- C2: for every byte buffer, content type and tenant, a get with the
handle returned by a put, performed before the blob's expiry instant
and with no intervening operation, returns exactly the stored bytes
and content type. -/
theorem roundtrip_get_after_put (now now1 : Nat) (k : String) (s : Storage) (w : String)
    (d : List Nat) (ct : String) (ttl : Option Nat)
    (hfresh : now1 ≤ now + ttlOrDefault ttl) :
    (MemoryStorage.download now1 (MemoryStorage.uploadInternal now k s w d ct ttl).1 w
        (MemoryStorage.uploadInternal now k s w d ct ttl).2.1).2 = some (d, ct) := by
  have hkey : (MemoryStorage.uploadInternal now k s w d ct ttl).2.1 = k := rfl
  rw [hkey]
  have hlk : lookupFile (MemoryStorage.uploadInternal now k s w d ct ttl).1 w k
      = some (mkFile d ct now (now + ttlOrDefault ttl)) :=
    MemoryStorage.uploadInternal_lookup now k s w d ct ttl
  obtain ⟨wc, hw, hf⟩ := lookupFile_some hlk
  have hnot : ¬ (mkFile d ct now (now + ttlOrDefault ttl)).expiresAt < now1 := by
    show ¬ now + ttlOrDefault ttl < now1
    omega
  rw [MemoryStorage.download_hit now1 hw hf hnot]
  rfl

/-- Witness for C2 at a concrete input. -/
theorem roundtrip_get_after_put_witness :
    (MemoryStorage.download 100
        (MemoryStorage.uploadInternal 0 keyOne emptyStorage tenantOne [1, 2, 3] pngType
          (some 1000)).1 tenantOne
        (MemoryStorage.uploadInternal 0 keyOne emptyStorage tenantOne [1, 2, 3] pngType
          (some 1000)).2.1).2 = some ([1, 2, 3], pngType) :=
  roundtrip_get_after_put 0 100 keyOne emptyStorage tenantOne [1, 2, 3] pngType (some 1000)
    (by decide)

/-- C10: an upload with an explicit ttl of 0 milliseconds behaves
exactly as an upload with no ttl: the stored blob expires at
now + 600000 (the default ttl), not immediately. -/
theorem zero_ttl_uses_default (now : Nat) (k : String) (s : Storage) (w : String)
    (d : List Nat) (ct : String) :
    MemoryStorage.uploadInternal now k s w d ct (some 0)
      = MemoryStorage.uploadInternal now k s w d ct none
    ∧ lookupFile (MemoryStorage.uploadInternal now k s w d ct (some 0)).1 w k
      = some { data := d, contentType := ct, uploadedAt := now,
               expiresAt := now + 600000 } := by
  constructor
  · rfl
  · exact MemoryStorage.uploadInternal_lookup now k s w d ct (some 0)

/-- C9 amended: a second concurrent upload for the same tenant awaits
the in-flight upload; when the in-flight upload succeeded the waiter
returns that upload's result unchanged, inserting nothing of its own,
and only when the in-flight upload failed (or no upload is in flight)
does the caller run its own uploadInternal. -/
theorem upload_waiter_behavior (r : String × String) (e : Unit) (now : Nat) (k : String)
    (s : Storage) (w : String) (d : List Nat) (ct : String) (ttl : Option Nat) :
    MemoryStorage.upload (some (Except.ok r)) now k s w d ct ttl = (s, r.1, r.2)
    ∧ MemoryStorage.upload (some (Except.error e)) now k s w d ct ttl
      = MemoryStorage.uploadInternal now k s w d ct ttl
    ∧ MemoryStorage.upload none now k s w d ct ttl
      = MemoryStorage.uploadInternal now k s w d ct ttl :=
  ⟨rfl, rfl, rfl⟩

/-- Counterexample to C9 as stated: a waiter whose predecessor upload
succeeded receives the predecessor's handle (not a fresh one of its
own) and its own bytes are never inserted; the state is returned
untouched. -/
theorem upload_waiter_inherits_result :
    (MemoryStorage.upload (some (Except.ok (keyOne, pngType))) 1 keyTwo oneBlobState
        tenantOne [2] pngType (some 1000)).2.1 = keyOne
    ∧ keyOne ≠ keyTwo
    ∧ lookupFile (MemoryStorage.upload (some (Except.ok (keyOne, pngType))) 1 keyTwo
        oneBlobState tenantOne [2] pngType (some 1000)).1 tenantOne keyTwo = none
    ∧ (MemoryStorage.upload (some (Except.ok (keyOne, pngType))) 1 keyTwo oneBlobState
        tenantOne [2] pngType (some 1000)).1 = oneBlobState := by
  refine ⟨rfl, by decide, ?_, rfl⟩
  decide

/-- C7: delete returns true exactly when the tenant exists and holds a
live entry under the handle; a second delete of the same handle then
returns false, and a delete that returns false leaves the state
unchanged. -/
theorem delete_true_iff_live (s : Storage) (w k : String) (hwf : WF s) :
    ((MemoryStorage.delete s w k).2 = true ↔
      ∃ wc, mapGet s.workflowCaches w = some wc ∧ ∃ f, mapGet wc.cache k = some f)
    ∧ ((MemoryStorage.delete s w k).2 = true →
        (MemoryStorage.delete (MemoryStorage.delete s w k).1 w k).2 = false)
    ∧ ((MemoryStorage.delete s w k).2 = false → (MemoryStorage.delete s w k).1 = s) := by
  obtain ⟨hkeys, hcaches⟩ := hwf
  cases hw : mapGet s.workflowCaches w with
  | none =>
    rw [MemoryStorage.delete_eq_of_no_tenant k hw]
    refine ⟨?_, ?_, ?_⟩
    · simp [hw]
    · intro hcontra; simp at hcontra
    · intro _; rfl
  | some wc =>
    cases hf : mapGet wc.cache k with
    | none =>
      rw [MemoryStorage.delete_eq_of_no_file hw hf]
      refine ⟨?_, ?_, ?_⟩
      · simp [hw, hf]
      · intro hcontra; simp at hcontra
      · intro _; rfl
    | some f =>
      obtain ⟨wc1, heq, hc1, hs1⟩ := MemoryStorage.delete_spec hw hf
      rw [heq]
      refine ⟨?_, ?_, ?_⟩
      · exact iff_of_true rfl ⟨wc, rfl, f, hf⟩
      · intro _
        have hnd : (wc.cache.map Prod.fst).Nodup := hcaches _ (mem_of_mapGet hw)
        have hnone : mapGet wc1.cache k = none := by
          rw [hc1]; exact mapGet_mapErase_self hnd
        have hw1 : mapGet (mapSet s.workflowCaches w wc1) w = some wc1 :=
          mapGet_mapSet_self s.workflowCaches w wc1
        rw [MemoryStorage.delete_eq_of_no_file hw1 hnone]
      · intro hcontra; simp at hcontra

/-- Witness for C7 at a concrete reachable state. -/
theorem delete_true_iff_live_witness :
    ((MemoryStorage.delete oneBlobState tenantOne keyOne).2 = true ↔
      ∃ wc, mapGet oneBlobState.workflowCaches tenantOne = some wc ∧
        ∃ f, mapGet wc.cache keyOne = some f)
    ∧ ((MemoryStorage.delete oneBlobState tenantOne keyOne).2 = true →
        (MemoryStorage.delete (MemoryStorage.delete oneBlobState tenantOne keyOne).1
          tenantOne keyOne).2 = false)
    ∧ ((MemoryStorage.delete oneBlobState tenantOne keyOne).2 = false →
        (MemoryStorage.delete oneBlobState tenantOne keyOne).1 = oneBlobState) :=
  delete_true_iff_live oneBlobState tenantOne keyOne
    (MemoryStorage.uploadInternal_Inv 0 keyOne tenantOne [5] pngType (some 100)
      emptyStorage_Inv).1

/-- C8: cleanupWorkflowExpired does no work at all, leaving the whole
storage state unchanged, when the tenant's next expiration is unset
(which in a reachable state means the tenant holds no blobs) or is
still strictly in the future. -/
theorem cleanup_short_circuit (now : Nat) (s : Storage) (w : String) (wc : WorkflowCache)
    (hwc : mapGet s.workflowCaches w = some wc)
    (hreach : wc.nextExpirationTime = none → wc.cache = [])
    (hcond : wc.nextExpirationTime = none ∨
      ∃ t, wc.nextExpirationTime = some t ∧ now < t) :
    MemoryStorage.cleanupWorkflowExpired now s w = s := by
  rcases hcond with hnone | ⟨t, ht, hlt⟩
  · have hc : wc.cache = [] := hreach hnone
    simp [MemoryStorage.cleanupWorkflowExpired, hwc, hc]
  · have ht0 : ¬ t = 0 := by omega
    have htr : truthyAnd wc.nextExpirationTime (fun x => now < x) = true := by
      simp [truthyAnd, ht, ht0, hlt]
    by_cases hc : wc.cache.length = 0
    · simp [MemoryStorage.cleanupWorkflowExpired, hwc, hc]
    · simp [MemoryStorage.cleanupWorkflowExpired, hwc, hc, htr]

/-- Witness for C8 at a concrete state whose next expiration is at 100,
probed at time 50. -/
theorem cleanup_short_circuit_witness :
    MemoryStorage.cleanupWorkflowExpired 50 oneBlobState tenantOne = oneBlobState := by
  apply cleanup_short_circuit 50 oneBlobState tenantOne
    (WorkflowCache.mk [(keyOne, mkFile [5] pngType 0 100)] 1 (some 100) [(keyOne, 100)])
  · decide
  · intro h; exact absurd h (by decide)
  · exact Or.inr ⟨100, rfl, by decide⟩

/-- C4 amended: a get against a tenant namespace that does not itself
hold the handle misses, and any hit returns an entry of the queried
tenant's own namespace — never another tenant's blob.  When the handle
string coincidentally exists in the queried tenant's own namespace,
the get returns that tenant's own blob instead of a miss. -/
theorem get_isolated_namespace (now : Nat) (s : Storage) (w k : String) :
    (lookupFile s w k = none → (MemoryStorage.download now s w k).2 = none)
    ∧ (∀ d ct, (MemoryStorage.download now s w k).2 = some (d, ct) →
        ∃ f, lookupFile s w k = some f ∧ f.data = d ∧ f.contentType = ct) := by
  constructor
  · intro h
    unfold lookupFile at h
    unfold MemoryStorage.download
    split
    · rfl
    · rename_i wc hw
      simp only [hw] at h
      split
      · rfl
      · rename_i f hf
        rw [h] at hf
        cases hf
  · intro d ct h
    unfold MemoryStorage.download at h
    split at h
    · simp at h
    · rename_i wc hw
      split at h
      · simp at h
      · rename_i f hf
        split at h
        · simp at h
        · simp at h
          refine ⟨f, ?_, h.1, h.2⟩
          unfold lookupFile
          simp [hw, hf]

/-- Witness for C4 amended: a get for an absent tenant misses. -/
theorem get_isolated_namespace_witness :
    (MemoryStorage.download 5 emptyStorage tenantOne keyOne).2 = none :=
  (get_isolated_namespace 5 emptyStorage tenantOne keyOne).1 rfl

/-- Two tenants that were handed the same raw handle string by their
uploads: tenant w1 stores [9] and tenant w2 stores [8] under k1. -/
def collisionState : Storage :=
  (MemoryStorage.uploadInternal 1 keyOne
    (MemoryStorage.uploadInternal 0 keyOne emptyStorage tenantOne [9] pngType (some 100)).1
    tenantTwo [8] pngType (some 100)).1

/-- Counterexample to C4 as stated: when the handle string collides
with an entry tenant w2 itself holds, get(w2, handle) is a hit (it
returns w2's own blob), not the miss the claim requires. -/
theorem get_collision_not_a_miss :
    (MemoryStorage.uploadInternal 0 keyOne emptyStorage tenantOne [9] pngType
      (some 100)).2.1 = keyOne
    ∧ tenantOne ≠ tenantTwo
    ∧ (MemoryStorage.download 2 collisionState tenantTwo keyOne).2 = some ([8], pngType)
    ∧ (MemoryStorage.download 2 collisionState tenantTwo keyOne).2 ≠ none := by
  refine ⟨rfl, by decide, by decide, by decide⟩

/-- C3 amended: for every nonzero ttl, a get strictly after
uploadedAt + ttl is a miss (the Option result distinguishes it from a
hit, no exception is possible), and every subsequent get for the same
handle misses as well. -/
theorem expired_get_misses (s : Storage) (w k : String) (d : List Nat) (ct : String)
    (t now now1 now2 : Nat) (hInv : Inv s) (ht : 0 < t) (hlate : now + t < now1) :
    (MemoryStorage.download now1
        (MemoryStorage.uploadInternal now k s w d ct (some t)).1 w k).2 = none
    ∧ (MemoryStorage.download now2
        (MemoryStorage.download now1
          (MemoryStorage.uploadInternal now k s w d ct (some t)).1 w k).1 w k).2 = none := by
  have ht0 : ¬ t = 0 := by omega
  have httl : ttlOrDefault (some t) = t := by simp [ttlOrDefault, ht0]
  have hlk := MemoryStorage.uploadInternal_lookup now k s w d ct (some t)
  rw [httl] at hlk
  obtain ⟨wc, hw, hf⟩ := lookupFile_some hlk
  have hd1 := MemoryStorage.download_expired now1 hw hf hlate
  constructor
  · rw [hd1]
  · rw [hd1]
    have hInv1 : Inv (MemoryStorage.uploadInternal now k s w d ct (some t)).1 :=
      MemoryStorage.uploadInternal_Inv now k w d ct (some t) hInv
    have hnd : (wc.cache.map Prod.fst).Nodup := hInv1.1.2 _ (mem_of_mapGet hw)
    obtain ⟨wc1, heq, hc1, hs1⟩ := MemoryStorage.delete_spec hw hf
    rw [heq]
    have hw1 : mapGet
        (mapSet (MemoryStorage.uploadInternal now k s w d ct (some t)).1.workflowCaches w wc1) w
        = some wc1 := mapGet_mapSet_self _ _ _
    have hf1 : mapGet wc1.cache k = none := by
      rw [hc1]; exact mapGet_mapErase_self hnd
    rw [MemoryStorage.download_miss_of_no_file now2 hw1 hf1]

/-- Witness for C3 amended at a concrete input: ttl 10, uploaded at 0,
get at 11 misses, get at 12 misses again. -/
theorem expired_get_misses_witness :
    (MemoryStorage.download 11
        (MemoryStorage.uploadInternal 0 keyOne emptyStorage tenantOne [7] pngType
          (some 10)).1 tenantOne keyOne).2 = none
    ∧ (MemoryStorage.download 12
        (MemoryStorage.download 11
          (MemoryStorage.uploadInternal 0 keyOne emptyStorage tenantOne [7] pngType
            (some 10)).1 tenantOne keyOne).1 tenantOne keyOne).2 = none :=
  expired_get_misses emptyStorage tenantOne keyOne [7] pngType 10 0 11 12
    emptyStorage_Inv (by decide) (by decide)

/-- Counterexample to C3 as stated: with ttl = 0 the blob does not
expire immediately — a get at time 1, strictly after uploadedAt + 0,
is a hit, because a zero ttl falls back to the 600000 ms default. -/
theorem zero_ttl_get_still_hits :
    (MemoryStorage.download 1
        (MemoryStorage.uploadInternal 0 keyOne emptyStorage tenantOne [7] pngType
          (some 0)).1 tenantOne keyOne).2 = some ([7], pngType)
    ∧ (MemoryStorage.download 1
        (MemoryStorage.uploadInternal 0 keyOne emptyStorage tenantOne [7] pngType
          (some 0)).1 tenantOne keyOne).2 ≠ none := by
  refine ⟨by decide, by decide⟩

/-- C6: after any sequence of put, get, delete, cleanup, eviction,
clear and validate operations from the empty store, every tenant's
recorded cacheSize equals the sum of its live blob sizes, the recorded
global size equals the sum of the tenant sizes, and validateCacheSize
therefore finds no discrepancy and applies no correction. -/
theorem sizes_consistent_after_any_ops (ops : List Op) :
    (∀ p ∈ (run ops emptyStorage).workflowCaches,
        p.2.cacheSize = MemoryStorage.cacheTotal p.2.cache)
    ∧ (run ops emptyStorage).globalCacheSize
        = MemoryStorage.tenantsTotal (run ops emptyStorage).workflowCaches
    ∧ ∀ w, MemoryStorage.validateCacheSize (run ops emptyStorage) w
        = (run ops emptyStorage, false) := by
  have h := run_Inv ops emptyStorage_Inv
  exact ⟨h.2.1, h.2.2, fun w => MemoryStorage.validateCacheSize_of_Inv w h⟩

/-- Concrete operation sequence exercising every kind of operation. -/
def mixedOps : List Op :=
  [Op.put 0 keyOne tenantOne [1, 2] pngType (some 50),
   Op.put 3 keyTwo tenantTwo [3, 4, 5] pngType none,
   Op.get 60 tenantOne keyOne,
   Op.cleanupAll 70,
   Op.del tenantTwo keyTwo,
   Op.evictTenant tenantOne 1,
   Op.evictGlobal 1,
   Op.validate tenantOne,
   Op.clearOp (some tenantOne)]

/-- Witness for C6 at a concrete operation sequence. -/
theorem sizes_consistent_after_any_ops_witness :
    (run mixedOps emptyStorage).globalCacheSize
      = MemoryStorage.tenantsTotal (run mixedOps emptyStorage).workflowCaches
    ∧ MemoryStorage.validateCacheSize (run mixedOps emptyStorage) tenantOne
      = (run mixedOps emptyStorage, false) :=
  ⟨(sizes_consistent_after_any_ops mixedOps).2.1,
   (sizes_consistent_after_any_ops mixedOps).2.2 tenantOne⟩

/-- C5 amended: get, delete and all cleanup and eviction operations
never increase any tenant's recorded cacheSize or the global size, so
they preserve the 100 MB per-tenant and 500 MB global ceilings
whenever these hold; only a put may exceed the ceilings, when its
eviction pass cannot free the blob's size within the
MAX_DELETE_PER_CLEANUP cap and the MIN_FILES_TO_KEEP retention floor
(a soft limit by design). -/
theorem non_put_ops_size_monotone (s : Storage) (now req : Nat) (w k : String)
    (wq : Option String) :
    MemoryStorage.getCacheSize (MemoryStorage.delete s w k).1 wq
        ≤ MemoryStorage.getCacheSize s wq
    ∧ MemoryStorage.getCacheSize (MemoryStorage.download now s w k).1 wq
        ≤ MemoryStorage.getCacheSize s wq
    ∧ MemoryStorage.getCacheSize (MemoryStorage.cleanupWorkflowExpired now s w) wq
        ≤ MemoryStorage.getCacheSize s wq
    ∧ MemoryStorage.getCacheSize (MemoryStorage.cleanupAllExpired now s) wq
        ≤ MemoryStorage.getCacheSize s wq
    ∧ MemoryStorage.getCacheSize (MemoryStorage.cleanupOldestInWorkflow s w req) wq
        ≤ MemoryStorage.getCacheSize s wq
    ∧ MemoryStorage.getCacheSize (MemoryStorage.cleanupOldestGlobal s req) wq
        ≤ MemoryStorage.getCacheSize s wq :=
  ⟨MemoryStorage.delete_size_le s w k wq,
   MemoryStorage.download_size_le now s w k wq,
   MemoryStorage.cleanupWorkflowExpired_size_le now s w wq,
   MemoryStorage.cleanupAllExpired_size_le now s wq,
   MemoryStorage.cleanupOldestInWorkflow_size_le s w req wq,
   MemoryStorage.cleanupOldestGlobal_size_le s req wq⟩

/-- A 60 MB byte buffer. -/
def blob60 : List Nat := List.replicate (60 * 1024 * 1024) 0

/-- A 50 MB byte buffer. -/
def blob50 : List Nat := List.replicate (50 * 1024 * 1024) 0

/-- Scenario A, step 1: 60 MB uploaded to tenant w1 at t = 0, ttl 60 s. -/
def scenarioA1 : Storage :=
  (MemoryStorage.uploadInternal 0 keyOne emptyStorage tenantOne blob60 pngType
    (some 60000)).1

/-- Scenario A, step 2: 50 MB uploaded to the same tenant at t = 1 s. -/
def scenarioA2 : Storage :=
  (MemoryStorage.uploadInternal 1000 keyTwo scenarioA1 tenantOne blob50 pngType
    (some 60000)).1

/-- The store after the first Scenario A upload, with the 60 MB byte
buffer abstract. -/
def midStateA (d1 : List Nat) : Storage :=
  Storage.mk [(tenantOne, WorkflowCache.mk [(keyOne, mkFile d1 pngType 0 60000)]
    62914560 (some 60000) [(keyOne, 60000)])] 62914560 (some 60000)

/-- The store after both Scenario A uploads, with the byte buffers
abstract: both blobs live, tenant counter at 110 MB. -/
def finalStateA (d1 d2 : List Nat) : Storage :=
  Storage.mk [(tenantOne, WorkflowCache.mk
      [(keyOne, mkFile d1 pngType 0 60000), (keyTwo, mkFile d2 pngType 1000 61000)]
      115343360 (some 60000) [(keyOne, 60000), (keyTwo, 61000)])]
    115343360 (some 60000)

theorem scenarioA_first (d1 : List Nat) (h60 : d1.length = 62914560) :
    (MemoryStorage.uploadInternal 0 keyOne emptyStorage tenantOne d1 pngType
      (some 60000)).1 = midStateA d1 := by
  unfold MemoryStorage.uploadInternal
  rw [h60]
  have hprep : MemoryStorage.uploadPrepare 0 62914560 emptyStorage tenantOne
      = Storage.mk [(tenantOne, emptyWorkflowCache)] 0 none := by
    simp [MemoryStorage.uploadPrepare, MemoryStorage.uploadStep1, MemoryStorage.uploadStep2,
      MemoryStorage.uploadStep4, MemoryStorage.uploadStep5,
      MemoryStorage.getOrCreateWorkflowCache, emptyStorage, emptyWorkflowCache, truthyAnd,
      mapGet, mapSet, GLOBAL_MAX_CACHE_SIZE, MAX_CACHE_SIZE]
  rw [hprep]
  simp [MemoryStorage.uploadInsert, MemoryStorage.uploadFinish, ttlOrDefault, mapGet, mapSet,
    emptyWorkflowCache, MemoryStorage.spliceInsert, MemoryStorage.findInsertIndex,
    MemoryStorage.findInsertGo, eraseQueueKey, mkFile, midStateA, h60]

theorem scenarioA_mid_cwe (d1 : List Nat) :
    MemoryStorage.cleanupWorkflowExpired 1000 (midStateA d1) tenantOne = midStateA d1 := by
  simp [MemoryStorage.cleanupWorkflowExpired, midStateA, mkFile, truthyAnd, mapGet]

theorem scenarioA_mid_cow (d1 : List Nat) :
    MemoryStorage.cleanupOldestInWorkflow (midStateA d1) tenantOne 52428800
      = midStateA d1 := by
  simp [MemoryStorage.cleanupOldestInWorkflow, MemoryStorage.sortAsc, MemoryStorage.insertAsc,
    MemoryStorage.evictOldestLoop, midStateA, mkFile, mapGet, MAX_DELETE_PER_CLEANUP,
    MIN_FILES_TO_KEEP]

theorem scenarioA_prep2 (d1 : List Nat) :
    MemoryStorage.uploadPrepare 1000 52428800 (midStateA d1) tenantOne = midStateA d1 := by
  have e1 : MemoryStorage.uploadStep1 1000 (midStateA d1) = midStateA d1 := by
    simp [MemoryStorage.uploadStep1, midStateA, truthyAnd]
  have e2 : MemoryStorage.uploadStep2 1000 52428800 (midStateA d1) = midStateA d1 := by
    norm_num [MemoryStorage.uploadStep2, midStateA, GLOBAL_MAX_CACHE_SIZE]
  have e3 : MemoryStorage.getOrCreateWorkflowCache (midStateA d1) tenantOne
      = midStateA d1 := by
    simp [MemoryStorage.getOrCreateWorkflowCache, midStateA, mapGet]
  have e4 : MemoryStorage.uploadStep4 1000 (midStateA d1) tenantOne = midStateA d1 := by
    simp [MemoryStorage.uploadStep4, midStateA, mapGet, truthyAnd]
  have e5 : MemoryStorage.uploadStep5 1000 52428800 (midStateA d1) tenantOne
      = midStateA d1 := by
    rw [MemoryStorage.uploadStep5, scenarioA_mid_cwe]
    dsimp only
    rw [scenarioA_mid_cow]
    norm_num [midStateA, mapGet, MAX_CACHE_SIZE]
  unfold MemoryStorage.uploadPrepare
  rw [e1, e2, e3, e4, e5]

theorem scenarioA_general (d1 d2 : List Nat) (h60 : d1.length = 62914560)
    (h50 : d2.length = 52428800) :
    (MemoryStorage.uploadInternal 1000 keyTwo
      (MemoryStorage.uploadInternal 0 keyOne emptyStorage tenantOne d1 pngType
        (some 60000)).1
      tenantOne d2 pngType (some 60000)).1 = finalStateA d1 d2 := by
  rw [scenarioA_first d1 h60]
  unfold MemoryStorage.uploadInternal
  rw [h50, scenarioA_prep2 d1]
  have hkk : (("k1" : String) = "k2") = False := eq_false (by decide)
  norm_num [MemoryStorage.uploadInsert, MemoryStorage.uploadFinish, ttlOrDefault, mapGet,
    mapSet, midStateA, finalStateA, mkFile, MemoryStorage.spliceInsert,
    MemoryStorage.findInsertIndex, MemoryStorage.findInsertGo, eraseQueueKey, h50, keyOne,
    keyTwo, tenantOne, hkk]

theorem blob60_length : blob60.length = 62914560 := by
  show (List.replicate (60 * 1024 * 1024) (0 : Nat)).length = 62914560
  rw [List.length_replicate]

theorem blob50_length : blob50.length = 52428800 := by
  show (List.replicate (50 * 1024 * 1024) (0 : Nat)).length = 52428800
  rw [List.length_replicate]

theorem scenarioA2_eq : scenarioA2 = finalStateA blob60 blob50 := by
  unfold scenarioA2 scenarioA1
  exact scenarioA_general blob60 blob50 blob60_length blob50_length

/-- Counterexample to C1 as stated: in Scenario A the second put does
NOT evict the first blob — its get at t = 2 s still hits, and the
tenant's cacheSize is not 50 MB. -/
theorem second_put_does_not_evict :
    (MemoryStorage.download 2000 scenarioA2 tenantOne keyOne).2 ≠ none
    ∧ MemoryStorage.getCacheSize scenarioA2 (some tenantOne) ≠ 50 * 1024 * 1024 := by
  rw [scenarioA2_eq]
  constructor
  · simp [MemoryStorage.download, finalStateA, mkFile, mapGet, keyOne, keyTwo, tenantOne]
  · norm_num [MemoryStorage.getCacheSize, finalStateA, mapGet, tenantOne]

/-- C1 amended: the 50 MB put at t = 1 s into the tenant holding a
single 60 MB blob triggers the eviction pass, but the
MIN_FILES_TO_KEEP = 1 retention floor forbids evicting a tenant's only
blob, so both blobs stay live: the first blob's get still hits, the
second blob is stored, and the tenant's cacheSize ends at 110 MB,
above the 100 MB cap (soft overcommit, no eviction). -/
theorem second_put_overcommits :
    (MemoryStorage.download 2000 scenarioA2 tenantOne keyOne).2 = some (blob60, pngType)
    ∧ lookupFile scenarioA2 tenantOne keyTwo = some (mkFile blob50 pngType 1000 61000)
    ∧ MemoryStorage.getCacheSize scenarioA2 (some tenantOne) = 110 * 1024 * 1024
    ∧ MAX_CACHE_SIZE < MemoryStorage.getCacheSize scenarioA2 (some tenantOne) := by
  rw [scenarioA2_eq]
  refine ⟨?_, ?_, ?_, ?_⟩
  · simp [MemoryStorage.download, finalStateA, mkFile, mapGet, keyOne, keyTwo, tenantOne]
  · simp [lookupFile, finalStateA, mapGet, keyOne, keyTwo, tenantOne]
  · norm_num [MemoryStorage.getCacheSize, finalStateA, mapGet, tenantOne]
  · norm_num [MemoryStorage.getCacheSize, finalStateA, mapGet, MAX_CACHE_SIZE, tenantOne]

/-- Counterexample to C5 as stated: immediately after the second put
of Scenario A — a state reached from the empty store by two put
operations — the tenant's recorded cacheSize exceeds
MAX_TENANT_CACHE_SIZE, so the capacity bound does not hold after every
operation. -/
theorem tenant_cap_exceeded :
    MAX_CACHE_SIZE < MemoryStorage.getCacheSize scenarioA2 (some tenantOne) := by
  rw [scenarioA2_eq]
  norm_num [MemoryStorage.getCacheSize, finalStateA, mapGet, MAX_CACHE_SIZE, tenantOne]

end BinaryToUrl
